import Mathlib

/-!
Verification of the fake-news-detector analysis pipeline.

The Python sources are shallowly embedded over `List Nat` (Unicode code
points): `src/clean_data.py` (text normalization and record building),
`src/llm_helper.py` (clickbait and sentiment classification),
`src/main.py` (keyword highlighting, keyword-relevance filtering) and
`src/analyze.py` (group length comparison).  Character-level operations
(`str.lower`, `str.upper`, `\w`, `\s`) are modelled char-to-char: the
full ASCII mappings plus the one-to-one Unicode mapping U+017F → S that
Python's `str.upper` performs.  Python's remaining Unicode case foldings
can expand one code point into several (e.g. `İ` lowercases to `i` plus
the combining dot U+0307) and its `\w` is Unicode-aware, which a
char-to-char model cannot express; claims whose truth depends on those
mappings are therefore stated on inputs where this embedding agrees
exactly with Python (ASCII inputs, or the exact mapping U+017F → S).
-/

/-- Code points of a Lean string literal; used to write concrete Python
strings from the sources. -/
def pystr (s : String) : List Nat :=
  s.data.map Char.toNat

/-- Python `str.lower` on one code point, at the char-to-char level:
ASCII uppercase letters are lowercased, everything else is kept.  Python
additionally folds some non-ASCII points (e.g. `İ` U+0130 becomes `i`
followed by the combining dot U+0307, a one-to-two expansion a
char-to-char model cannot express); notably `ſ` U+017F is kept by
`str.lower`, exactly as here. -/
def lowerChar (c : Nat) : Nat :=
  if 65 ≤ c ∧ c ≤ 90 then c + 32 else c

/-- Python `str.upper` on one code point, at the char-to-char level:
ASCII lowercase letters are uppercased, and the one-to-one Unicode
mapping `ſ` U+017F → `S` that Python performs is included; other
non-ASCII points are kept (Python's expanding mappings such as
`ß` → `SS` are outside the char-to-char model). -/
def upperChar (c : Nat) : Nat :=
  if 97 ≤ c ∧ c ≤ 122 then c - 32
  else if c = 383 then 83
  else c

/-- Python `str.lower` over a whole string. -/
def lowerStr (s : List Nat) : List Nat :=
  s.map lowerChar

/-- Python `str.upper` over a whole string. -/
def upperStr (s : List Nat) : List Nat :=
  s.map upperChar

/-- The regex class `\s` (ASCII): space, tab, newline, carriage return,
vertical tab, form feed. -/
def isSpaceChar (c : Nat) : Bool :=
  decide (c = 32 ∨ c = 9 ∨ c = 10 ∨ c = 13 ∨ c = 11 ∨ c = 12)

/-- The regex class `\w` restricted to ASCII: digits, letters,
underscore.  Python's `re` module has a Unicode-aware `\w` that also
matches non-ASCII letters; claims that depend on `\w` are therefore
stated on ASCII inputs, where the two coincide. -/
def isWordChar (c : Nat) : Bool :=
  decide ((48 ≤ c ∧ c ≤ 57) ∨ (65 ≤ c ∧ c ≤ 90) ∨ (97 ≤ c ∧ c ≤ 122) ∨ c = 95)

/-- Does `re.sub(r"http\S+", "", ...)` have a match starting at the head of
`s`?  It needs the literal `http` followed by at least one non-space
character (`\S+` is nonempty). -/
def urlMatch (s : List Nat) : Bool :=
  match s with
  | 104 :: 116 :: 116 :: 112 :: d :: _ => !(isSpaceChar d)
  | _ => false

/-- One left-to-right pass of `re.sub(r"http\S+", "", text)`
(clean_data.py line 36), with explicit fuel; each step consumes at least
one character, so fuel `s.length` is always enough. -/
def removeUrlsF : Nat → List Nat → List Nat
  | 0, s => s
  | _ + 1, [] => []
  | fuel + 1, c :: cs =>
    if urlMatch (c :: cs) then
      removeUrlsF fuel (List.dropWhile (fun x => !(isSpaceChar x)) (cs.drop 3))
    else
      c :: removeUrlsF fuel cs

/-- `re.sub(r"http\S+", "", text)`: remove each leftmost, greedy match of
the URL pattern (clean_data.py line 36). -/
def removeUrls (s : List Nat) : List Nat :=
  removeUrlsF s.length s

/-- `re.sub(r"[^\w\s]", "", text)`: keep only word characters and
whitespace (clean_data.py line 39). -/
def removePunct (s : List Nat) : List Nat :=
  s.filter (fun c => isWordChar c || isSpaceChar c)

/-- Worker for `re.sub(r"\s+", " ", text)`: the flag records whether the
previous character belonged to a whitespace run already replaced. -/
def collapseAux : Bool → List Nat → List Nat
  | _, [] => []
  | prevSpace, c :: cs =>
    if isSpaceChar c then
      if prevSpace then collapseAux true cs else 32 :: collapseAux true cs
    else
      c :: collapseAux false cs

/-- `re.sub(r"\s+", " ", text)`: replace every maximal whitespace run by a
single ASCII space (clean_data.py line 42). -/
def collapseWs (s : List Nat) : List Nat :=
  collapseAux false s

/-- `clean_text` (clean_data.py lines 15-45): strip URLs, strip
non-word/non-space characters, collapse whitespace, lowercase. -/
def clean_text (text : List Nat) : List Nat :=
  lowerStr (collapseWs (removePunct (removeUrls text)))

example : clean_text (pystr "Check this! https://x.co Amazing!!!") =
    pystr "check this amazing" := by decide

example : clean_text (pystr "HTTPX") = pystr "httpx" := by decide

example : clean_text (pystr "httpx") = pystr "" := by decide

/-- Python `p in s` on strings: is `p` a contiguous substring of `s`? -/
def isSubstr (p s : List Nat) : Bool :=
  match s with
  | [] => p.isEmpty
  | _ :: cs => p.isPrefixOf s || isSubstr p cs

/-- `CLICKBAIT_WORDS` (llm_helper.py lines 38-41): the fixed twelve-phrase
clickbait lexicon. -/
def CLICKBAIT_WORDS : List (List Nat) :=
  [pystr "shocking", pystr "unbelievable", pystr "you won\x27t believe",
   pystr "secret", pystr "exposed", pystr "surprising",
   pystr "this will change", pystr "the truth about", pystr "miracle",
   pystr "guaranteed", pystr "instantly", pystr "click here"]

/-- `detect_clickbait_in_title` (llm_helper.py lines 76-108): lowercase the
title, collect the lexicon entries occurring in it, classify by whether
that list is nonempty. -/
def detect_clickbait_in_title (title : List Nat) : List Nat :=
  let title_lower := lowerStr title
  let found_words := CLICKBAIT_WORDS.filter (fun word => isSubstr word title_lower)
  if found_words.isEmpty then pystr "Not Clickbait" else pystr "Clickbait"

example : detect_clickbait_in_title (pystr "You won\x27t believe this shocking discovery!") =
    pystr "Clickbait" := by decide

example : detect_clickbait_in_title (pystr "Scientists publish new research findings") =
    pystr "Not Clickbait" := by decide

/-- Python `str.capitalize`: uppercase the first character, lowercase the
rest (llm_helper.py line 70). -/
def py_capitalize : List Nat → List Nat
  | [] => []
  | c :: cs => upperChar c :: lowerStr cs

/-- Round-half-to-even to an integer, the rounding Python's builtin
`round` uses (the score is modelled over `ℚ` rather than binary
floating point). -/
def rhe (q : ℚ) : ℤ :=
  if q - ⌊q⌋ < 1 / 2 then ⌊q⌋
  else if 1 / 2 < q - ⌊q⌋ then ⌊q⌋ + 1
  else if ⌊q⌋ % 2 = 0 then ⌊q⌋ else ⌊q⌋ + 1

/-- `round(x, 2)` (llm_helper.py line 71): round to two decimal places. -/
def round2 (q : ℚ) : ℚ :=
  (rhe (100 * q) : ℚ) / 100

/-- `analyze_article_with_local_llm` (llm_helper.py lines 43-74).  The
pretrained model is an external collaborator, passed in as the function
`classifier` from truncated text to a raw (label, score) pair; the body
truncates to 512 characters, capitalizes the raw label and rounds the raw
score to two decimals.  There is no other processing: no label is checked
or rejected. -/
def analyze_article_with_local_llm (text : List Nat)
    (classifier : List Nat → List Nat × ℚ) : List Nat × ℚ :=
  let t := text.take 512
  let result := classifier t
  (py_capitalize result.1, round2 result.2)

example : py_capitalize (pystr "POSITIVE") = pystr "Positive" := by decide

example : py_capitalize (pystr "NEUTRAL") = pystr "Neutral" := by decide

/-- The nested `source` dictionary of a NewsAPI article: `art["source"]`
with its `name` key possibly absent. -/
structure SourceRec where
  name : Option (List Nat)
deriving DecidableEq

/-- A raw NewsAPI article as consumed by `articles_to_df`
(clean_data.py lines 76-90).  `none` models an absent key. -/
structure RawArticle where
  title : Option (List Nat)
  description : Option (List Nat)
  source : Option SourceRec
  publishedAt : Option (List Nat)
deriving DecidableEq

/-- One row of the DataFrame `articles_to_df` builds
(clean_data.py lines 85-90). -/
structure Record where
  source : List Nat
  title : List Nat
  text : List Nat
  publishedAt : List Nat
deriving DecidableEq

/-- The per-article body of `articles_to_df` (clean_data.py lines 76-90):
`art["title"]`, `art["source"]["name"]` and `art["publishedAt"]` raise
`KeyError` when absent (modelled as `none`); `art.get("description") or ""`
turns an absent description into the empty string; the record's text is
`clean_text(title + " " + description)`. -/
def buildRecord (art : RawArticle) : Option Record := do
  let t ← art.title
  let d := art.description.getD []
  let cleaned := clean_text (t ++ 32 :: d)
  let src ← art.source
  let sname ← src.name
  let p ← art.publishedAt
  pure { source := sname, title := t, text := cleaned, publishedAt := p }

/-- `articles_to_df` (clean_data.py lines 47-93) over a list of raw
articles; the first missing required field aborts the construction. -/
def articles_to_df (articles : List RawArticle) : Option (List Record) :=
  articles.mapM buildRecord

/-- Characters that are special in a Python regular expression:
`\ ^ $ * + ? { } [ ] | ( )`.  The dot is handled separately (it is
modelled as the any-character wildcard). -/
def isRegexMeta (c : Nat) : Bool :=
  decide (c = 92 ∨ c = 94 ∨ c = 36 ∨ c = 42 ∨ c = 43 ∨ c = 63 ∨ c = 123 ∨
    c = 125 ∨ c = 91 ∨ c = 93 ∨ c = 124 ∨ c = 40 ∨ c = 41)

/-- Does the pattern match a prefix of `s` here?  A dot (code 46) matches
any character except newline; any other pattern character matches itself
case-insensitively (`re.IGNORECASE`, from `case=False`). -/
def reMatchHere : List Nat → List Nat → Bool
  | [], _ => true
  | _ :: _, [] => false
  | p :: ps, c :: cs =>
    (if p = 46 then !(c == 10) else lowerChar p == lowerChar c) &&
      reMatchHere ps cs

/-- `re.search` over the dot-and-literal regex fragment: does the pattern
match starting at some position of `s`? -/
def reSearch (p s : List Nat) : Bool :=
  match s with
  | [] => reMatchHere p []
  | _ :: cs => reMatchHere p s || reSearch p cs

/-- `Series.str.contains(pat, case=False, na=False)` on one cell, as used
by the keyword filter (main.py lines 175-178, streamlit_app.py lines
130-133).  pandas interprets `pat` as a regular expression (its default
`regex=True`) compiled with `re.IGNORECASE`.  Patterns using regex syntax
beyond literals and the dot wildcard are outside this model (`none`). -/
def str_contains (s pat : List Nat) : Option Bool :=
  if pat.all (fun c => !isRegexMeta c) then some (reSearch pat s) else none

/-- The keyword-relevance filter condition of main.py lines 175-178 and
streamlit_app.py lines 130-133: keep a row when the topic pattern is found
in its title or in its cleaned text. -/
def keepRecord (topic title text : List Nat) : Option Bool := do
  let a ← str_contains title topic
  let b ← str_contains text topic
  pure (a || b)

/-- Python `len(x.split())`, the word count used by `compare_lengths`
(analyze.py lines 72-73): counts maximal non-whitespace runs.  The flag
records whether the previous character was inside a word. -/
def wordCountAux : Bool → List Nat → Nat
  | _, [] => 0
  | inWord, c :: cs =>
    if isSpaceChar c then wordCountAux false cs
    else (if inWord then 0 else 1) + wordCountAux true cs

/-- `len(x.split())` for a whole string. -/
def wordCount (s : List Nat) : Nat :=
  wordCountAux false s

example : wordCount (pystr "") = 0 := by decide

example : wordCount (pystr "  two  words ") = 2 := by decide

/-- Result shape of `scipy.stats.ttest_ind` to the granularity this
development needs: either a NaN-valued pair or a computed statistic. -/
inductive TtResult where
  | nan : TtResult
  | computed : TtResult
deriving DecidableEq

/-- Modelled from the spec: `scipy.stats.ttest_ind` is third-party library
code, not part of this repository.  The spec fixes only its degenerate
behavior — a group with fewer than two samples has no defined sample
variance (`ddof=1`), so the statistic and p-value are NaN and no exception
is raised.  The numeric value for adequately sized groups is not modelled
(it may itself be NaN for zero-variance groups, which no claim here
concerns). -/
def ttest_ind (a b : List ℚ) : TtResult :=
  if a.length < 2 ∨ b.length < 2 then TtResult.nan else TtResult.computed

/-- `compare_lengths` (analyze.py lines 48-81): word counts of each
group's `text` column are handed to the independent-samples t-test. -/
def compare_lengths (df1 df2 : List Record) : TtResult :=
  ttest_ind (df1.map fun r => (wordCount r.text : ℚ))
    (df2.map fun r => (wordCount r.text : ℚ))

/-- `colorama.Fore.RED`, the ANSI escape `ESC[31m` (main.py line 69). -/
def FORE_RED : List Nat := pystr "\x1b[31m"

/-- `colorama.Fore.WHITE`, the ANSI escape `ESC[37m` (main.py line 41). -/
def FORE_WHITE : List Nat := pystr "\x1b[37m"

/-- The `while i < len(text)` loop of `highlight_keyword` (main.py lines
65-74) with explicit fuel, scanning the remaining suffix of `text`: when
the next `len(keyword)` characters match the keyword case-insensitively,
the red-colored slice is appended and the slice is skipped; otherwise one
character is copied.  `none` means the fuel ran out, i.e. the modelled
number of loop iterations exceeds the fuel. -/
def highlightF : Nat → List Nat → List Nat → List Nat → List Nat → Option (List Nat)
  | 0, _, _, _, _ => none
  | _ + 1, [], _, _, acc => some acc
  | fuel + 1, c :: rest, keyword, base, acc =>
    if lowerStr ((c :: rest).take keyword.length) == lowerStr keyword then
      highlightF fuel ((c :: rest).drop keyword.length) keyword base
        (acc ++ FORE_RED ++ (c :: rest).take keyword.length ++ base)
    else
      highlightF fuel rest keyword base (acc ++ [c])

/-- `highlight_keyword` (main.py lines 41-76).  A non-empty keyword makes
the loop consume at least one character per iteration, so `text.length + 1`
units of fuel suffice; an empty keyword makes `i += 0` and the Python loop
never terminates, which surfaces here as `none`. -/
def highlight_keyword (text keyword base_color : List Nat) : Option (List Nat) :=
  highlightF (text.length + 1) text keyword base_color []

/-- The terminal front end's clickbait label for one article
(main.py lines 190-193): the shared classifier's result, unchanged. -/
def terminal_clickbait_label (title : List Nat) : List Nat :=
  detect_clickbait_in_title title

/-- The web front end's clickbait label for one article
(streamlit_app.py lines 142-144): the shared classifier's result is
re-tested for the phrase `likely clickbait`. -/
def web_clickbait_label (title : List Nat) : List Nat :=
  let clickbait_result := detect_clickbait_in_title title
  if isSubstr (pystr "likely clickbait") (lowerStr clickbait_result) then
    pystr "Clickbait"
  else
    pystr "Not Clickbait"

example : highlight_keyword (pystr "Apple iPhone news") (pystr "iphone") FORE_WHITE =
    some (pystr "Apple " ++ FORE_RED ++ pystr "iPhone" ++ FORE_WHITE ++ pystr " news") := by
  decide

/-- Verification predicate: the first character, if any, is not whitespace. -/
def headNotSpace : List Nat → Bool
  | [] => true
  | c :: _ => !isSpaceChar c

/-- Verification predicate: `c` followed by the head of the list is not a
pair of adjacent whitespace characters. -/
def headSpaceOk (c : Nat) : List Nat → Bool
  | [] => true
  | d :: _ => !(isSpaceChar c && isSpaceChar d)

/-- Verification predicate: the string has no two adjacent whitespace
characters. -/
def wellSpaced : List Nat → Bool
  | [] => true
  | c :: cs => headSpaceOk c cs && wellSpaced cs

theorem lowerChar_lowerChar (c : Nat) : lowerChar (lowerChar c) = lowerChar c := by
  unfold lowerChar
  rcases Decidable.em (65 ≤ c ∧ c ≤ 90) with hA | hA
  · simp only [if_pos hA]
    rw [if_neg (by omega : ¬(65 ≤ c + 32 ∧ c + 32 ≤ 90))]
  · simp only [if_neg hA]

theorem upperChar_lowerChar (c : Nat) : upperChar (lowerChar c) = upperChar c := by
  unfold lowerChar upperChar
  rcases Decidable.em (65 ≤ c ∧ c ≤ 90) with hA | hA
  · simp only [if_pos hA]
    rw [if_pos (by omega : 97 ≤ c + 32 ∧ c + 32 ≤ 122),
      if_neg (by omega : ¬(97 ≤ c ∧ c ≤ 122)), if_neg (by omega : ¬c = 383)]
    omega
  · simp only [if_neg hA]

theorem lowerChar_upperChar_ascii (c : Nat) (hc : c < 128) :
    lowerChar (upperChar c) = lowerChar c := by
  unfold lowerChar upperChar
  rcases Decidable.em (97 ≤ c ∧ c ≤ 122) with hB | hB
  · simp only [if_pos hB]
    rw [if_pos (by omega : 65 ≤ c - 32 ∧ c - 32 ≤ 90),
      if_neg (by omega : ¬(65 ≤ c ∧ c ≤ 90))]
    omega
  · simp only [if_neg hB, if_neg (by omega : ¬c = 383)]

theorem isSpaceChar_lowerChar (c : Nat) : isSpaceChar (lowerChar c) = isSpaceChar c := by
  unfold isSpaceChar lowerChar
  rcases Decidable.em (65 ≤ c ∧ c ≤ 90) with hA | hA
  · simp only [if_pos hA, decide_eq_decide]
    omega
  · simp only [if_neg hA]

theorem isWordChar_lowerChar (c : Nat) : isWordChar (lowerChar c) = isWordChar c := by
  unfold isWordChar lowerChar
  rcases Decidable.em (65 ≤ c ∧ c ≤ 90) with hA | hA
  · simp only [if_pos hA, decide_eq_decide]
    omega
  · simp only [if_neg hA]

theorem not_space_of_word (c : Nat) (h : isWordChar c = true) : isSpaceChar c = false := by
  simp only [isWordChar, decide_eq_true_eq] at h
  simp only [isSpaceChar, decide_eq_false_iff_not]
  omega

theorem lowerStr_lowerStr (s : List Nat) : lowerStr (lowerStr s) = lowerStr s := by
  induction s with
  | nil => rfl
  | cons c cs ih =>
    simp only [lowerStr, List.map_cons] at ih ⊢
    rw [lowerChar_lowerChar]
    exact congrArg _ ih

theorem lowerStr_upperStr_ascii (s : List Nat) (h : ∀ c ∈ s, c < 128) :
    lowerStr (upperStr s) = lowerStr s := by
  induction s with
  | nil => rfl
  | cons c cs ih =>
    simp only [lowerStr, upperStr, List.map_cons]
    rw [lowerChar_upperChar_ascii c (h c (List.mem_cons_self c cs))]
    have ih' := ih fun x hx => h x (List.mem_cons_of_mem c hx)
    simp only [lowerStr, upperStr] at ih'
    exact congrArg _ ih'

theorem collapseAux_space_true (c : Nat) (cs : List Nat) (h : isSpaceChar c = true) :
    collapseAux true (c :: cs) = collapseAux true cs := by
  simp [collapseAux, h]

theorem collapseAux_space_false (c : Nat) (cs : List Nat) (h : isSpaceChar c = true) :
    collapseAux false (c :: cs) = 32 :: collapseAux true cs := by
  simp [collapseAux, h]

theorem collapseAux_cons_nonspace (b : Bool) (c : Nat) (cs : List Nat)
    (h : isSpaceChar c = false) :
    collapseAux b (c :: cs) = c :: collapseAux false cs := by
  simp [collapseAux, h]

theorem collapseAux_mem (b : Bool) (s : List Nat)
    (h : ∀ c ∈ s, isWordChar c = true ∨ isSpaceChar c = true) :
    ∀ c ∈ collapseAux b s, isWordChar c = true ∨ c = 32 := by
  induction s generalizing b with
  | nil => intro c hc; cases hc
  | cons a as ih =>
    have ha := h a (List.mem_cons_self a as)
    have htail : ∀ c ∈ as, isWordChar c = true ∨ isSpaceChar c = true :=
      fun c hc => h c (List.mem_cons_of_mem a hc)
    intro c hc
    by_cases hsp : isSpaceChar a = true
    · simp only [collapseAux, hsp, if_true] at hc
      cases b with
      | true => exact ih true htail c hc
      | false =>
        rcases List.mem_cons.mp hc with h32 | hc'
        · exact Or.inr h32
        · exact ih true htail c hc'
    · simp only [collapseAux, hsp, if_false] at hc
      rcases List.mem_cons.mp hc with rfl | hc'
      · rcases ha with hw | hs
        · exact Or.inl hw
        · exact absurd hs hsp
      · exact ih false htail c hc'

theorem headNotSpace_collapseAux_true (s : List Nat) :
    headNotSpace (collapseAux true s) = true := by
  induction s with
  | nil => rfl
  | cons a as ih =>
    by_cases hsp : isSpaceChar a = true
    · rw [collapseAux_space_true a as hsp]
      exact ih
    · rw [Bool.not_eq_true] at hsp
      rw [collapseAux_cons_nonspace true a as hsp]
      simp only [headNotSpace, hsp, Bool.not_false]

theorem wellSpaced_collapseAux (b : Bool) (s : List Nat) :
    wellSpaced (collapseAux b s) = true := by
  induction s generalizing b with
  | nil => rfl
  | cons a as ih =>
    by_cases hsp : isSpaceChar a = true
    · cases b with
      | true =>
        simp only [collapseAux, hsp, if_true]
        exact ih true
      | false =>
        simp only [collapseAux, hsp, if_true, wellSpaced, Bool.and_eq_true]
        refine ⟨?_, ih true⟩
        have hh := headNotSpace_collapseAux_true as
        cases hcol : collapseAux true as with
        | nil => rfl
        | cons d ds =>
          rw [hcol] at hh
          simp only [headNotSpace, Bool.not_eq_true'] at hh
          simp only [headSpaceOk, hh, Bool.and_false, Bool.not_false]
    · simp only [collapseAux, hsp, if_false, wellSpaced, Bool.and_eq_true]
      refine ⟨?_, ih false⟩
      cases hcol : collapseAux false as with
      | nil => rfl
      | cons d ds =>
        simp only [Bool.not_eq_true'] at hsp
        simp only [headSpaceOk, hsp, Bool.false_and, Bool.not_false]

theorem collapseAux_id :
    ∀ s : List Nat, (∀ c ∈ s, isSpaceChar c = true → c = 32) →
      wellSpaced s = true →
      ∀ b, (b = true → headNotSpace s = true) → collapseAux b s = s := by
  intro s
  induction s with
  | nil => intro _ _ b _; cases b <;> rfl
  | cons a as ih =>
    intro hsp32 hws b hb
    have htail32 : ∀ c ∈ as, isSpaceChar c = true → c = 32 :=
      fun c hc => hsp32 c (List.mem_cons_of_mem a hc)
    simp only [wellSpaced, Bool.and_eq_true] at hws
    by_cases hsp : isSpaceChar a = true
    · cases b with
      | true =>
        exfalso
        have h1 := hb rfl
        simp only [headNotSpace, Bool.not_eq_true'] at h1
        rw [h1] at hsp
        exact Bool.false_ne_true hsp
      | false =>
        have ha32 : a = 32 := hsp32 a (List.mem_cons_self a as) hsp
        have hhead : headNotSpace as = true := by
          cases as with
          | nil => rfl
          | cons d ds =>
            have h2 := hws.1
            simp only [headSpaceOk, hsp, Bool.true_and] at h2
            simp only [headNotSpace]
            exact h2
        rw [collapseAux_space_false a as hsp,
          ih htail32 hws.2 true (fun _ => hhead), ha32]
    · rw [Bool.not_eq_true] at hsp
      rw [collapseAux_cons_nonspace b a as hsp,
        ih htail32 hws.2 false (fun h => absurd h Bool.false_ne_true)]

theorem removePunct_id (s : List Nat)
    (h : ∀ c ∈ s, isWordChar c = true ∨ isSpaceChar c = true) :
    removePunct s = s := by
  induction s with
  | nil => rfl
  | cons a as ih =>
    have ha : (isWordChar a || isSpaceChar a) = true := by
      rcases h a (List.mem_cons_self a as) with hw | hs
      · simp [hw]
      · simp [hs]
    simp only [removePunct, List.filter_cons, ha, if_true]
    exact congrArg _ (ih fun c hc => h c (List.mem_cons_of_mem a hc))

theorem lowerStr_id (s : List Nat) (h : ∀ c ∈ s, lowerChar c = c) :
    lowerStr s = s := by
  induction s with
  | nil => rfl
  | cons a as ih =>
    simp only [lowerStr, List.map_cons]
    rw [h a (List.mem_cons_self a as)]
    exact congrArg _ (ih fun c hc => h c (List.mem_cons_of_mem a hc))

theorem wellSpaced_lowerStr (s : List Nat) : wellSpaced (lowerStr s) = wellSpaced s := by
  induction s with
  | nil => rfl
  | cons a as ih =>
    simp only [lowerStr, List.map_cons, wellSpaced] at ih ⊢
    rw [ih]
    cases as with
    | nil => rfl
    | cons d ds =>
      simp only [List.map_cons, headSpaceOk, isSpaceChar_lowerChar]

theorem clean_text_mem (t : List Nat) :
    ∀ c ∈ clean_text t, isWordChar c = true ∨ c = 32 := by
  intro c hc
  unfold clean_text lowerStr at hc
  rcases List.mem_map.mp hc with ⟨d, hd, rfl⟩
  have hd' : isWordChar d = true ∨ d = 32 := by
    refine collapseAux_mem false _ ?_ d hd
    intro e he
    have he' := (List.mem_filter.mp he).2
    rcases Bool.or_eq_true_iff.mp he' with hw | hs
    · exact Or.inl hw
    · exact Or.inr hs
  rcases hd' with hw | h32
  · left
    rw [isWordChar_lowerChar]
    exact hw
  · right
    rw [h32]
    decide

theorem wellSpaced_clean_text (t : List Nat) : wellSpaced (clean_text t) = true := by
  unfold clean_text collapseWs
  rw [wellSpaced_lowerStr]
  exact wellSpaced_collapseAux false _

/-- C3 is refuted on the code: a second normalization pass can remove
more, because lowercasing (or punctuation removal) may create a fresh
match of the URL pattern.  `clean_text "HTTPX" = "httpx"`, but
`clean_text "httpx" = ""`. -/
theorem clean_text_not_idempotent :
    clean_text (clean_text (pystr "HTTPX")) ≠ clean_text (pystr "HTTPX") := by
  decide

/-- C3 (amended): normalization is idempotent on every ASCII input whose
once-normalized text contains no match of the URL pattern, i.e. on which
the URL-removal step is the identity; on ASCII input the remaining three
steps are always idempotent.  The ASCII restriction keeps the claim to
inputs on which this embedding agrees exactly with Python: beyond ASCII
a second pass can remove still more, because Python's `str.lower` can
expand a code point (`İ` becomes `i` plus the combining dot U+0307) into
characters the second punctuation pass then deletes. -/
theorem clean_text_idempotent_of_no_url (t : List Nat)
    (_hascii : ∀ c ∈ t, c < 128)
    (h : removeUrls (clean_text t) = clean_text t) :
    clean_text (clean_text t) = clean_text t := by
  have hmem := clean_text_mem t
  have h32 : ∀ c ∈ clean_text t, isSpaceChar c = true → c = 32 := by
    intro c hc hsp
    rcases hmem c hc with hw | h'
    · rw [not_space_of_word c hw] at hsp
      exact absurd hsp Bool.false_ne_true
    · exact h'
  have hpunct : ∀ c ∈ clean_text t, isWordChar c = true ∨ isSpaceChar c = true := by
    intro c hc
    rcases hmem c hc with hw | h'
    · exact Or.inl hw
    · right
      rw [h']
      rfl
  have hlc : ∀ c ∈ clean_text t, lowerChar c = c := by
    intro c hc
    have : c ∈ lowerStr (collapseWs (removePunct (removeUrls t))) := hc
    rcases List.mem_map.mp this with ⟨d, _, rfl⟩
    exact lowerChar_lowerChar d
  have hcoll : collapseWs (clean_text t) = clean_text t :=
    collapseAux_id (clean_text t) h32 (wellSpaced_clean_text t) false
      (fun hh => absurd hh Bool.false_ne_true)
  show lowerStr (collapseWs (removePunct (removeUrls (clean_text t)))) = clean_text t
  rw [h, removePunct_id _ hpunct, hcoll]
  exact lowerStr_id _ hlc

/-- Witness for the amended C3 at a concrete ASCII input whose
normalized form has no URL-pattern match. -/
theorem clean_text_idempotent_of_no_url_witness :
    (∀ c ∈ pystr "Hello World!", c < 128) ∧
    removeUrls (clean_text (pystr "Hello World!")) = clean_text (pystr "Hello World!") ∧
    clean_text (clean_text (pystr "Hello World!")) = clean_text (pystr "Hello World!") :=
  ⟨by decide, by decide,
    clean_text_idempotent_of_no_url (pystr "Hello World!") (by decide) (by decide)⟩

/-- C5: `clean_text` is the four spec steps in their stated order — URL
removal, punctuation removal, whitespace collapsing, lowercasing — it is
a total function, and it sends the reference input to exactly the
reference output (with the ASCII word-character definition). -/
theorem clean_text_steps :
    (∀ t, clean_text t = lowerStr (collapseWs (removePunct (removeUrls t)))) ∧
    clean_text (pystr "Check this! https://x.co Amazing!!!") = pystr "check this amazing" ∧
    clean_text (pystr "") = pystr "" :=
  ⟨fun _ => rfl, by decide, by decide⟩

theorem filter_isEmpty_eq_false_iff {α : Type} (f : α → Bool) (l : List α) :
    (l.filter f).isEmpty = false ↔ ∃ a ∈ l, f a = true := by
  induction l with
  | nil => simp [List.filter]
  | cons a as ih =>
    by_cases h : f a = true
    · simp [List.filter_cons, h]
    · rw [Bool.not_eq_true] at h
      simp [List.filter_cons, h, ih]

theorem isSubstr_iff (p s : List Nat) : isSubstr p s = true ↔ p <:+: s := by
  induction s with
  | nil =>
    simp only [isSubstr, List.isEmpty_iff, List.infix_nil]
  | cons c cs ih =>
    simp only [isSubstr, Bool.or_eq_true_iff, List.isPrefixOf_iff_prefix, ih,
      List.infix_cons_iff]

/-- C4: the classifier answers `Clickbait` exactly when some entry of the
twelve-phrase lexicon occurs as a literal substring of the lowercased
title; substring occurrence carries no word-boundary requirement. -/
theorem detect_clickbait_iff (title : List Nat) :
    detect_clickbait_in_title title = pystr "Clickbait" ↔
      ∃ w ∈ CLICKBAIT_WORDS, w <:+: lowerStr title := by
  show (if (CLICKBAIT_WORDS.filter fun word => isSubstr word (lowerStr title)).isEmpty
      then pystr "Not Clickbait" else pystr "Clickbait") = pystr "Clickbait" ↔ _
  cases hE : (CLICKBAIT_WORDS.filter fun word => isSubstr word (lowerStr title)).isEmpty with
  | true =>
    rw [if_pos rfl]
    constructor
    · intro hcontr
      exact absurd hcontr (by decide)
    · rintro ⟨w, hw, hinf⟩
      have hsub : isSubstr w (lowerStr title) = true := (isSubstr_iff _ _).mpr hinf
      have hne := (filter_isEmpty_eq_false_iff
        (fun word => isSubstr word (lowerStr title)) CLICKBAIT_WORDS).mpr ⟨w, hw, hsub⟩
      rw [hE] at hne
      exact absurd hne (by decide)
  | false =>
    rw [if_neg Bool.false_ne_true]
    constructor
    · intro _
      rcases (filter_isEmpty_eq_false_iff
        (fun word => isSubstr word (lowerStr title)) CLICKBAIT_WORDS).mp hE with ⟨w, hw, hsub⟩
      exact ⟨w, hw, (isSubstr_iff _ _).mp hsub⟩
    · intro _
      rfl

/-- C9 is refuted on the code: Python's case mappings are not inverse to
each other on all of Unicode.  `str.lower` keeps `ſ` (U+017F) but
`str.upper` maps it to `S`, so the title `ſhocking` is classified
`Not Clickbait` while its uppercase `SHOCKING` is classified
`Clickbait`. -/
theorem detect_clickbait_not_case_insensitive :
    detect_clickbait_in_title (pystr "ſhocking") = pystr "Not Clickbait" ∧
    detect_clickbait_in_title (upperStr (pystr "ſhocking")) = pystr "Clickbait" ∧
    upperStr (pystr "ſhocking") = pystr "SHOCKING" :=
  ⟨by decide, by decide, by decide⟩

/-- C9 (amended): the clickbait classifier is case-insensitive on every
ASCII title — uppercasing such a title does not change its label.  It is
not case-insensitive in general, because Python's one-way Unicode case
mappings (`ſ` → `S`) can make a lexicon phrase appear only after
uppercasing (see the counterexample). -/
theorem detect_clickbait_case_insensitive_ascii (t : List Nat)
    (h : ∀ c ∈ t, c < 128) :
    detect_clickbait_in_title t = detect_clickbait_in_title (upperStr t) := by
  unfold detect_clickbait_in_title
  rw [lowerStr_upperStr_ascii t h]

/-- Witness for the amended C9 at an ASCII title containing a lexicon
phrase. -/
theorem detect_clickbait_case_insensitive_ascii_witness :
    (∀ c ∈ pystr "Shocking news", c < 128) ∧
    detect_clickbait_in_title (pystr "Shocking news") =
      detect_clickbait_in_title (upperStr (pystr "Shocking news")) :=
  ⟨by decide, detect_clickbait_case_insensitive_ascii (pystr "Shocking news") (by decide)⟩

/-- C2: the two front ends do NOT assign the same clickbait label.  Both
call the shared `detect_clickbait_in_title`, but the web front end
re-tests its result for the phrase `likely clickbait`, which the
classifier never returns; on the title `shocking` the terminal labels
`Clickbait` while the web labels `Not Clickbait`. -/
theorem clickbait_front_ends_disagree :
    terminal_clickbait_label (pystr "shocking") = pystr "Clickbait" ∧
    web_clickbait_label (pystr "shocking") = pystr "Not Clickbait" :=
  ⟨by decide, by decide⟩

theorem py_capitalize_lowerStr (lab : List Nat) :
    py_capitalize lab = py_capitalize (lowerStr lab) := by
  cases lab with
  | nil => rfl
  | cons c cs =>
    show upperChar c :: lowerStr cs = upperChar (lowerChar c) :: lowerStr (lowerStr cs)
    rw [upperChar_lowerChar, lowerStr_lowerStr]

theorem rhe_bounds (x : ℚ) (h0 : 0 ≤ x) (h1 : x ≤ 100) :
    0 ≤ rhe x ∧ rhe x ≤ 100 := by
  have hf0 : (0 : ℤ) ≤ ⌊x⌋ := Int.le_floor.mpr (by exact_mod_cast h0)
  have hfle : (⌊x⌋ : ℚ) ≤ x := Int.floor_le x
  have hf1 : ⌊x⌋ ≤ 100 := by exact_mod_cast hfle.trans h1
  unfold rhe
  by_cases hr : x - ⌊x⌋ < 1 / 2
  · rw [if_pos hr]
    exact ⟨hf0, hf1⟩
  · rw [if_neg hr]
    have hlt : ⌊x⌋ < 100 := by
      have hge : (1 : ℚ) / 2 ≤ x - ⌊x⌋ := le_of_not_lt hr
      by_contra hcon
      push_neg at hcon
      have : (100 : ℚ) ≤ (⌊x⌋ : ℚ) := by exact_mod_cast hcon
      linarith
    by_cases hr2 : 1 / 2 < x - ⌊x⌋
    · rw [if_pos hr2]
      exact ⟨by omega, by omega⟩
    · rw [if_neg hr2]
      by_cases he : ⌊x⌋ % 2 = 0
      · rw [if_pos he]
        exact ⟨hf0, hf1⟩
      · rw [if_neg he]
        exact ⟨by omega, by omega⟩

theorem round2_bounds (q : ℚ) (h0 : 0 ≤ q) (h1 : q ≤ 1) :
    0 ≤ round2 q ∧ round2 q ≤ 1 := by
  have h := rhe_bounds (100 * q) (by linarith) (by linarith)
  unfold round2
  constructor
  · apply div_nonneg _ (by norm_num)
    exact_mod_cast h.1
  · rw [div_le_one (by norm_num)]
    exact_mod_cast h.2

/-- C1 is refuted on the code: `analyze_article_with_local_llm` only
capitalizes whatever raw label the model hands back.  A raw pair
`("NEUTRAL", 0.5)` yields the coerced third label `"Neutral"` — no error
is raised and no binary label is enforced. -/
theorem analyze_coerces_unexpected_label :
    (analyze_article_with_local_llm (pystr "x")
        fun _ => (pystr "NEUTRAL", 1 / 2)).1 = pystr "Neutral" ∧
    pystr "Neutral" ≠ pystr "Positive" ∧
    pystr "Neutral" ≠ pystr "Negative" :=
  ⟨by decide, by decide, by decide⟩

/-- C1 (amended): when the raw label is `POSITIVE`/`NEGATIVE` in any
casing and the raw score lies in `[0,1]`, the classifier returns exactly
`Positive` or `Negative` with a rounded score still in `[0,1]`; an
unexpected raw label is NOT treated as an error — it is passed through
capitalized (see the counterexample). -/
theorem analyze_article_contract (text lab : List Nat) (sc : ℚ)
    (hlab : lowerStr lab = pystr "positive" ∨ lowerStr lab = pystr "negative")
    (h0 : 0 ≤ sc) (h1 : sc ≤ 1) :
    ((analyze_article_with_local_llm text fun _ => (lab, sc)).1 = pystr "Positive" ∨
      (analyze_article_with_local_llm text fun _ => (lab, sc)).1 = pystr "Negative") ∧
    0 ≤ (analyze_article_with_local_llm text fun _ => (lab, sc)).2 ∧
    (analyze_article_with_local_llm text fun _ => (lab, sc)).2 ≤ 1 := by
  have hfst : (analyze_article_with_local_llm text fun _ => (lab, sc)).1 =
      py_capitalize lab := rfl
  have hsnd : (analyze_article_with_local_llm text fun _ => (lab, sc)).2 =
      round2 sc := rfl
  refine ⟨?_, ?_, ?_⟩
  · rw [hfst, py_capitalize_lowerStr lab]
    rcases hlab with h | h
    · left
      rw [h]
      decide
    · right
      rw [h]
      decide
  · rw [hsnd]
    exact (round2_bounds sc h0 h1).1
  · rw [hsnd]
    exact (round2_bounds sc h0 h1).2

/-- Witness for the amended C1 at the raw pair `("POSITIVE", 19/20)`. -/
theorem analyze_article_contract_witness :
    lowerStr (pystr "POSITIVE") = pystr "positive" ∧
    (0 : ℚ) ≤ 19 / 20 ∧ (19 / 20 : ℚ) ≤ 1 ∧
    (((analyze_article_with_local_llm (pystr "Great news!")
          fun _ => (pystr "POSITIVE", 19 / 20)).1 = pystr "Positive" ∨
      (analyze_article_with_local_llm (pystr "Great news!")
          fun _ => (pystr "POSITIVE", 19 / 20)).1 = pystr "Negative") ∧
      0 ≤ (analyze_article_with_local_llm (pystr "Great news!")
          fun _ => (pystr "POSITIVE", 19 / 20)).2 ∧
      (analyze_article_with_local_llm (pystr "Great news!")
          fun _ => (pystr "POSITIVE", 19 / 20)).2 ≤ 1) :=
  ⟨by decide, by norm_num, by norm_num,
    analyze_article_contract (pystr "Great news!") (pystr "POSITIVE") (19 / 20)
      (Or.inl (by decide)) (by norm_num) (by norm_num)⟩

theorem reMatchHere_no_dot :
    ∀ p s : List Nat, (∀ c ∈ p, c ≠ 46) →
      reMatchHere p s = (lowerStr p).isPrefixOf (lowerStr s) := by
  intro p
  induction p with
  | nil =>
    intro s _
    cases s <;> rfl
  | cons a ps ih =>
    intro s hnd
    cases s with
    | nil => rfl
    | cons c cs =>
      have ha : a ≠ 46 := hnd a (List.mem_cons_self a ps)
      show ((if a = 46 then !(c == 10) else lowerChar a == lowerChar c) &&
          reMatchHere ps cs) = (lowerStr (a :: ps)).isPrefixOf (lowerStr (c :: cs))
      rw [if_neg ha, ih cs (fun x hx => hnd x (List.mem_cons_of_mem a hx))]
      rfl

theorem reSearch_no_dot (p : List Nat) (hnd : ∀ c ∈ p, c ≠ 46) :
    ∀ s, reSearch p s = isSubstr (lowerStr p) (lowerStr s) := by
  intro s
  induction s with
  | nil =>
    show reMatchHere p [] = (lowerStr p).isEmpty
    cases p with
    | nil => rfl
    | cons a ps => rfl
  | cons c cs ih =>
    show (reMatchHere p (c :: cs) || reSearch p cs) =
      isSubstr (lowerStr p) (lowerStr (c :: cs))
    rw [reMatchHere_no_dot p (c :: cs) hnd, ih]
    rfl

/-- C6 is refuted on the code: pandas `str.contains` defaults to
`regex=True`, so the topic is a regular expression, not a literal.  The
topic `a.c` keeps a record titled `abc` although `a.c` is not a
substring of the title or of the text. -/
theorem keepRecord_regex_counterexample :
    keepRecord (pystr "a.c") (pystr "abc") (pystr "") = some true ∧
    ¬ lowerStr (pystr "a.c") <:+: lowerStr (pystr "abc") ∧
    ¬ lowerStr (pystr "a.c") <:+: lowerStr (pystr "") :=
  ⟨by decide, by decide, by decide⟩

/-- C6 (amended): for a topic containing no regex metacharacter and no
dot, the keyword filter keeps a record exactly when the topic occurs
case-insensitively as a literal substring of its title or of its cleaned
text; in general the topic is interpreted as a regular expression. -/
theorem keepRecord_literal_topic (topic title text : List Nat)
    (hmeta : topic.all (fun c => !isRegexMeta c) = true)
    (hdot : topic.all (fun c => !(c == 46)) = true) :
    keepRecord topic title text =
      some (isSubstr (lowerStr topic) (lowerStr title) ||
        isSubstr (lowerStr topic) (lowerStr text)) ∧
    (keepRecord topic title text = some true ↔
      (lowerStr topic <:+: lowerStr title ∨ lowerStr topic <:+: lowerStr text)) := by
  have hnd : ∀ c ∈ topic, c ≠ 46 := by
    intro c hc h46
    have hall := List.all_eq_true.mp hdot c hc
    rw [h46] at hall
    exact absurd hall (by decide)
  have hkeep : keepRecord topic title text =
      some (reSearch topic title || reSearch topic text) := by
    unfold keepRecord str_contains
    simp only [if_pos hmeta]
    rfl
  rw [hkeep, reSearch_no_dot topic hnd title, reSearch_no_dot topic hnd text]
  refine ⟨rfl, ?_⟩
  constructor
  · intro hsome
    have hb := Option.some_inj.mp hsome
    rcases Bool.or_eq_true_iff.mp hb with h | h
    · exact Or.inl ((isSubstr_iff _ _).mp h)
    · exact Or.inr ((isSubstr_iff _ _).mp h)
  · intro hor
    have hb : (isSubstr (lowerStr topic) (lowerStr title) ||
        isSubstr (lowerStr topic) (lowerStr text)) = true := by
      rcases hor with h | h
      · exact Bool.or_eq_true_iff.mpr (Or.inl ((isSubstr_iff _ _).mpr h))
      · exact Bool.or_eq_true_iff.mpr (Or.inr ((isSubstr_iff _ _).mpr h))
    rw [hb]

/-- Witness for the amended C6 at the literal topic `ai`. -/
theorem keepRecord_literal_topic_witness :
    (pystr "ai").all (fun c => !isRegexMeta c) = true ∧
    (pystr "ai").all (fun c => !(c == 46)) = true ∧
    (keepRecord (pystr "ai") (pystr "OpenAI news") (pystr "") =
      some (isSubstr (lowerStr (pystr "ai")) (lowerStr (pystr "OpenAI news")) ||
        isSubstr (lowerStr (pystr "ai")) (lowerStr (pystr ""))) ∧
      (keepRecord (pystr "ai") (pystr "OpenAI news") (pystr "") = some true ↔
        (lowerStr (pystr "ai") <:+: lowerStr (pystr "OpenAI news") ∨
          lowerStr (pystr "ai") <:+: lowerStr (pystr "")))) :=
  ⟨by decide, by decide,
    keepRecord_literal_topic (pystr "ai") (pystr "OpenAI news") (pystr "")
      (by decide) (by decide)⟩

/-- C7 is refuted on the code: `articles_to_df` also indexes
`art["publishedAt"]`, so a raw article with title and source name both
present but `publishedAt` absent still fails. -/
theorem buildRecord_fails_on_missing_publishedAt :
    buildRecord
      { title := some (pystr "T")
        description := some (pystr "D")
        source := some { name := some (pystr "CNN") }
        publishedAt := none } = none :=
  by decide

/-- C7 (amended): building a normalized record fails exactly when the
title, the source name, or the published timestamp is absent; an absent
description is replaced by the empty string, and the record's text is
`clean_text(title + " " + description)`. -/
theorem buildRecord_spec (art : RawArticle) :
    (buildRecord art = none ↔
      art.title = none ∨ art.source.bind SourceRec.name = none ∨
        art.publishedAt = none) ∧
    (∀ t sn p, art.title = some t → art.source.bind SourceRec.name = some sn →
      art.publishedAt = some p →
      buildRecord art = some
        { source := sn
          title := t
          text := clean_text (t ++ 32 :: art.description.getD [])
          publishedAt := p }) := by
  obtain ⟨ot, od, os, op⟩ := art
  rcases ot with _ | t
  · simp [buildRecord]
  · rcases os with _ | ⟨oname⟩
    · simp [buildRecord]
    · rcases oname with _ | n
      · simp [buildRecord]
      · rcases op with _ | p
        · simp [buildRecord]
        · constructor
          · simp [buildRecord]
          · intro t' sn' p' ht hs hp
            simp only [Option.some_bind] at hs
            obtain rfl := Option.some_inj.mp ht
            obtain rfl := Option.some_inj.mp hs
            obtain rfl := Option.some_inj.mp hp
            rfl

/-- Witness for the amended C7: a raw article with every required field
present builds the expected record. -/
theorem buildRecord_spec_witness :
    buildRecord
      { title := some (pystr "T")
        description := none
        source := some { name := some (pystr "CNN") }
        publishedAt := some (pystr "2025-01-01") } =
      some
        { source := pystr "CNN"
          title := pystr "T"
          text := clean_text (pystr "T" ++ 32 :: [])
          publishedAt := pystr "2025-01-01" } :=
  (buildRecord_spec _).2 (pystr "T") (pystr "CNN") (pystr "2025-01-01")
    rfl rfl rfl

/-- C8: `compare_lengths` hands the two groups' word counts to the
t-test; when either group has fewer than two samples the result is the
NaN-valued non-result, never an exception (the function is total by
construction). -/
theorem compare_lengths_small_group_nan (df1 df2 : List Record)
    (h : df1.length < 2 ∨ df2.length < 2) :
    compare_lengths df1 df2 = TtResult.nan := by
  unfold compare_lengths ttest_ind
  rw [List.length_map, List.length_map]
  exact if_pos h

/-- Witness for C8: two empty groups yield the NaN result. -/
theorem compare_lengths_small_group_nan_witness :
    (([] : List Record).length < 2 ∨ ([] : List Record).length < 2) ∧
    compare_lengths [] [] = TtResult.nan :=
  ⟨Or.inl (by decide), compare_lengths_small_group_nan [] [] (Or.inl (by decide))⟩

theorem highlightF_empty_keyword :
    ∀ (fuel c : Nat) (rest base acc : List Nat),
      highlightF fuel (c :: rest) [] base acc = none := by
  intro fuel
  induction fuel with
  | zero =>
    intro c rest base acc
    rfl
  | succ n ih =>
    intro c rest base acc
    show (if lowerStr ((c :: rest).take (List.length ([] : List Nat))) ==
          lowerStr ([] : List Nat) then
        highlightF n ((c :: rest).drop (List.length ([] : List Nat))) [] base
          (acc ++ FORE_RED ++ (c :: rest).take (List.length ([] : List Nat)) ++ base)
      else highlightF n rest [] base (acc ++ [c])) = none
    simp only [List.length_nil, List.take_zero, List.drop_zero]
    rw [if_pos (by rfl)]
    exact ih c rest base _

theorem highlightF_some (keyword base : List Nat) (hk : keyword ≠ []) :
    ∀ fuel text acc, text.length < fuel →
      ∃ r, highlightF fuel text keyword base acc = some r := by
  intro fuel
  induction fuel with
  | zero =>
    intro text acc h
    exact absurd h (Nat.not_lt_zero _)
  | succ n ih =>
    intro text acc h
    cases text with
    | nil => exact ⟨acc, rfl⟩
    | cons c rest =>
      have hkpos : 0 < keyword.length := List.length_pos.mpr hk
      simp only [List.length_cons] at h
      by_cases hm : (lowerStr ((c :: rest).take keyword.length) ==
          lowerStr keyword) = true
      · have h1 : ((c :: rest).drop keyword.length).length < n := by
          rw [List.length_drop]
          simp only [List.length_cons]
          omega
        rcases ih ((c :: rest).drop keyword.length)
          (acc ++ FORE_RED ++ (c :: rest).take keyword.length ++ base) h1 with ⟨r, hr⟩
        refine ⟨r, ?_⟩
        show (if lowerStr ((c :: rest).take keyword.length) == lowerStr keyword then
            highlightF n ((c :: rest).drop keyword.length) keyword base
              (acc ++ FORE_RED ++ (c :: rest).take keyword.length ++ base)
          else highlightF n rest keyword base (acc ++ [c])) = some r
        rw [if_pos hm]
        exact hr
      · have h1 : rest.length < n := by omega
        rcases ih rest (acc ++ [c]) h1 with ⟨r, hr⟩
        refine ⟨r, ?_⟩
        show (if lowerStr ((c :: rest).take keyword.length) == lowerStr keyword then
            highlightF n ((c :: rest).drop keyword.length) keyword base
              (acc ++ FORE_RED ++ (c :: rest).take keyword.length ++ base)
          else highlightF n rest keyword base (acc ++ [c])) = some r
        rw [if_neg hm]
        exact hr

/-- C10 is refuted on the code: with an empty keyword the loop condition
`text[i:i+0].lower() == ""` is always true and `i += len(keyword)` makes
no progress, so `highlight_keyword` never terminates on any non-empty
text — no amount of fuel produces a result. -/
theorem highlight_keyword_empty_keyword_diverges :
    highlight_keyword (pystr "a") (pystr "") FORE_WHITE = none ∧
    ¬ ∃ fuel r, highlightF fuel (pystr "a") (pystr "") FORE_WHITE [] = some r := by
  constructor
  · decide
  · rintro ⟨fuel, r, hr⟩
    have heq1 : pystr "a" = 97 :: [] := by decide
    have heq2 : pystr "" = ([] : List Nat) := by decide
    rw [heq1, heq2, highlightF_empty_keyword fuel 97 [] FORE_WHITE []] at hr
    exact Option.noConfusion hr

/-- C10 (amended): for every text and every NON-empty keyword the
highlighting loop terminates and returns a string; each iteration then
consumes at least one character of the remaining text. -/
theorem highlight_keyword_terminates (text keyword base : List Nat)
    (hk : keyword ≠ []) :
    ∃ r, highlight_keyword text keyword base = some r :=
  highlightF_some keyword base hk (text.length + 1) text [] (by omega)

/-- Witness for the amended C10 at the keyword `iphone`. -/
theorem highlight_keyword_terminates_witness :
    pystr "iphone" ≠ [] ∧
    ∃ r, highlight_keyword (pystr "Apple iPhone news") (pystr "iphone")
      FORE_WHITE = some r :=
  ⟨by decide, highlight_keyword_terminates (pystr "Apple iPhone news")
    (pystr "iphone") FORE_WHITE (by decide)⟩
